import Mathlib

/-!
Shallow embedding of the `WorkingData` class of `nxtoolkit/nxphysobject.py`
(the indexing of raw switch JSON by dn and by class, the lookup operations,
and the vnid dictionary construction), together with theorems settling the
specification claims about it.

Modelling choices:
* A raw JSON item `{switch_class: {"attributes": {...}}}` is a `Record`
  holding its single class key and its attribute dictionary (the fields the
  code reads: `dn`, `role`, `name`, `encap`, `fabEncap`).
* Python dictionaries `by_dn`, `vnid_dict`, `ctx_dict`, `bd_dict` are total
  functions `String → Option _` (absent key ↦ `none`); assignment is
  pointwise functional update, so a later assignment to the same key
  overwrites the earlier one, exactly as in Python.
* `by_class` is a total function `String → List Record` with default `[]`:
  the code's lazy key creation (`if switch_class not in self.by_class`)
  and `get_class`'s `if not result: return []` are observationally this
  default, since an absent key and an empty list both read back as `[]`.
* Operations that can raise in Python return `Option`:
  `build_vnid_dictionary` raises `IndexError` on `fabEncap.split('-')[1]`
  when there is no hyphen and `TypeError` on `'l3Ctx' in None` when the
  parent dn of a bridge domain is not indexed; both are modelled as `none`.
-/

/-- The attribute dictionary of a raw JSON item, restricted to the keys the
`WorkingData` code reads. -/
structure Attributes where
  dn : String
  role : String
  name : String
  encap : String
  fabEncap : String
deriving DecidableEq, Repr

/-- One item of `rawjson`: its single class key and its attributes. -/
structure Record where
  switch_class : String
  attributes : Attributes
deriving DecidableEq, Repr

/-- An entry of `vnid_dict`: either `{'name': n, 'type': 'context'}` or
`{'name': n, 'type': 'bd', 'context': c}`. -/
inductive VnidEntry where
  | context (name : String)
  | bd (name : String) (ctx : Option String)
deriving DecidableEq, Repr

/-- The `'name'` field of a `vnid_dict` entry. -/
def VnidEntry.entry_name : VnidEntry → String
  | VnidEntry.context n => n
  | VnidEntry.bd n _ => n

/-- The `'type'` field of a `vnid_dict` entry. -/
def VnidEntry.entry_type : VnidEntry → String
  | VnidEntry.context _ => "context"
  | VnidEntry.bd _ _ => "bd"

/-- The `'context'` field of a bridge-domain `vnid_dict` entry (`none` for
a context entry, which has no such field). -/
def VnidEntry.bd_context : VnidEntry → Option String
  | VnidEntry.context _ => none
  | VnidEntry.bd _ c => c

/-- The mutable state of a `WorkingData` object. -/
structure WorkingData where
  by_dn : String → Option Record
  by_class : String → List Record
  vnid_dict : String → Option VnidEntry
  ctx_dict : String → Option String
  bd_dict : String → Option String

/-- The state right after `__init__` sets all dictionaries to `{}`. -/
def WorkingData.empty : WorkingData where
  by_dn := fun _ => none
  by_class := fun _ => []
  vnid_dict := fun _ => none
  ctx_dict := fun _ => none
  bd_dict := fun _ => none

/-- Pointwise update of a dictionary modelled as a function. -/
def updateFn (f : String → α) (k : String) (v : α) : String → α :=
  fun x => if x = k then v else f x

/-- The conditional append of `_index_objects` to `by_class[switch_class]`:
`fabricNode` items are appended when the role is `leaf` or `spine`; when the
role is `controller` the item is appended only if no item with the same dn
is already in the class list; any other `fabricNode` role is dropped; items
of every other class are appended unconditionally. -/
def classAppend (cur : List Record) (item : Record) : List Record :=
  if item.switch_class = "fabricNode" then
    if item.attributes.role = "leaf" ∨ item.attributes.role = "spine" then
      cur ++ [item]
    else if item.attributes.role = "controller" ∧ item ∉ cur then
      -- look through the objects in the class; only insert if absent
      if cur.any (fun x => x.attributes.dn = item.attributes.dn) then cur
      else cur ++ [item]
    else cur
  else cur ++ [item]

/-- The body of the `for switch_class in item` loop of
`WorkingData._index_objects`, processing one raw item: skip `error` keys,
index by dn, and append to the class list per `classAppend`. -/
def indexItem (wd : WorkingData) (item : Record) : WorkingData :=
  if item.switch_class = "error" then wd
  else
    { wd with
      by_dn := updateFn wd.by_dn item.attributes.dn (some item),
      by_class := updateFn wd.by_class item.switch_class
        (classAppend (wd.by_class item.switch_class) item) }

/-- Model of `WorkingData._index_objects`: index the raw items by dn and by class. -/
def indexObjects (rawjson : List Record) : WorkingData :=
  rawjson.foldl indexItem WorkingData.empty

/-- Model of `WorkingData.get_class`: all objects of a given class (`[]` when the
class was never seen; an absent key and a stored empty list are both falsy
in Python and both come back as `[]`). -/
def getClass (wd : WorkingData) (class_name : String) : List Record :=
  wd.by_class class_name

/-- Model of `WorkingData.get_subtree`: the records of the class kept by the test
`obj_dn[0:len(dname)] == dname` (the slice of the first `len(dname)`
characters of the record's dn compared with `dname`). -/
def getSubtree (wd : WorkingData) (class_name dname : String) : List Record :=
  (getClass wd class_name).filter
    (fun class_record => class_record.attributes.dn.take dname.length = dname)

/-- Model of `WorkingData.get_object`: the record stored under a dn, `None` when the
dn is absent (a stored record is a non-empty dict, hence truthy). -/
def getObject (wd : WorkingData) (dname : String) : Option Record :=
  wd.by_dn dname

/-- Python `str.split(sep)` for a single-character separator, on the
character list: split at every occurrence of the separator, keeping empty
pieces (so the result always has one more piece than there are separator
occurrences). -/
def splitChars (sep : Char) : List Char → List (List Char)
  | [] => [[]]
  | c :: cs =>
    let r := splitChars sep cs
    if c = sep then [] :: r
    else
      match r with
      | [] => [[c]]
      | w :: ws => (c :: w) :: ws

/-- Python `s.split(sep)` for a single-character separator (the only kind
the `WorkingData` code uses: `'-'`, `':'` and `'/'`). -/
def pySplit (s : String) (sep : Char) : List String :=
  (splitChars sep s.data).map List.asString

/-- The context-loop body of `build_vnid_dictionary`: the vnid is
`encap.split('-')[1]` when the encap contains a hyphen, else the whole
encap; store `{'name': name, 'type': 'context'}` under the vnid and the
opposite entry in `ctx_dict`. -/
def processCtx (wd : WorkingData) (ctx : Record) : WorkingData :=
  let vnid :=
    if ctx.attributes.encap.data.contains '-' then
      (pySplit ctx.attributes.encap '-').getD 1 ""
    else ctx.attributes.encap
  let name := ctx.attributes.name
  { wd with
    vnid_dict := updateFn wd.vnid_dict vnid (some (VnidEntry.context name)),
    ctx_dict := updateFn wd.ctx_dict name vnid }

/-- The last path segment stripped off a dn:
`'/'.join(dn.split('/')[0:-1])`. -/
def parentDn (dname : String) : String :=
  "/".intercalate (pySplit dname '/').dropLast

/-- The bridge-domain-loop body of `build_vnid_dictionary`.
`fabEncap.split('-')[1]` raises `IndexError` when there is no hyphen, and
`'l3Ctx' in ctx_data` raises `TypeError` when `get_object` returned `None`;
both abort the loop, modelled as `none`. -/
def processBD (wd : WorkingData) (l2bd : Record) : Option WorkingData :=
  match (pySplit l2bd.attributes.fabEncap '-').get? 1 with
  | none => none
  | some vnid =>
    let name0 := (pySplit l2bd.attributes.name ':').getLastD ""
    let name := if name0 = "" then vnid else name0
    let context_dn := parentDn l2bd.attributes.dn
    match getObject wd context_dn with
    | none => none
    | some ctx_data =>
      let context : Option String :=
        if ctx_data.switch_class = "l3Ctx" then some ctx_data.attributes.name
        else if ctx_data.switch_class = "l3Inst" then some ctx_data.attributes.name
        else none
      some { wd with
        vnid_dict := updateFn wd.vnid_dict vnid (some (VnidEntry.bd name context)),
        bd_dict := updateFn wd.bd_dict name vnid }

/-- The bridge-domain loop of `build_vnid_dictionary`: process each `l2BD`
record in order, aborting on the first raised exception. -/
def processBDs : WorkingData → List Record → Option WorkingData
  | wd, [] => some wd
  | wd, l2bd :: rest =>
    match processBD wd l2bd with
    | none => none
    | some wd2 => processBDs wd2 rest

/-- Model of `WorkingData.build_vnid_dictionary`: contexts first (`l3Inst` then
`l3Ctx`), then the bridge domains. -/
def buildVnidDictionary (wd : WorkingData) : Option WorkingData :=
  let ctx_data := getClass wd "l3Inst" ++ getClass wd "l3Ctx"
  let wd1 := ctx_data.foldl processCtx wd
  processBDs wd1 (getClass wd1 "l2BD")

/-- Model of `WorkingData.add` after a successful query: `_index_objects` followed by
`build_vnid_dictionary`. -/
def ingest (rawjson : List Record) : Option WorkingData :=
  buildVnidDictionary (indexObjects rawjson)

/-! ### Helper lemmas about the indexing step -/

theorem updateFn_same (f : String → α) (k : String) (v : α) : updateFn f k v k = v := by
  simp [updateFn]

theorem updateFn_other (f : String → α) {k x : String} (v : α) (h : x ≠ k) :
    updateFn f k v x = f x := by
  simp [updateFn, h]

theorem classAppend_eq_or (cur : List Record) (item : Record) :
    classAppend cur item = cur ∨ classAppend cur item = cur ++ [item] := by
  unfold classAppend
  repeat' split
  all_goals simp

theorem indexItem_by_dn (wd : WorkingData) (r : Record) :
    (indexItem wd r).by_dn =
      if r.switch_class = "error" then wd.by_dn
      else updateFn wd.by_dn r.attributes.dn (some r) := by
  unfold indexItem
  split <;> rfl

theorem indexItem_by_class_ne (wd : WorkingData) (r : Record) {c : String}
    (h : c ≠ r.switch_class) :
    (indexItem wd r).by_class c = wd.by_class c := by
  unfold indexItem
  split
  · rfl
  · exact updateFn_other _ _ h

theorem getLast?_cons_or (a : α) (l : List α) :
    (a :: l).getLast? = l.getLast?.or (some a) := by
  cases l with
  | nil => rfl
  | cons b t =>
    rw [List.getLast?_cons_cons]
    obtain ⟨y, hy⟩ := Option.isSome_iff_exists.mp
      (List.getLast?_isSome.mpr (List.cons_ne_nil b t))
    rw [hy]
    rfl

theorem foldl_indexItem_by_dn (l : List Record) (wd : WorkingData) (d : String) :
    (l.foldl indexItem wd).by_dn d =
      ((l.filter fun r => r.switch_class ≠ "error" ∧ r.attributes.dn = d).getLast?).or
        (wd.by_dn d) := by
  induction l generalizing wd with
  | nil => simp
  | cons r t ih =>
    rw [List.foldl_cons, ih]
    by_cases he : r.switch_class = "error"
    · rw [List.filter_cons_of_neg (by simp [he]),
        indexItem_by_dn]
      simp [he]
    · by_cases hd : r.attributes.dn = d
      · rw [List.filter_cons_of_pos (by simp [he, hd]), getLast?_cons_or,
          Option.or_assoc, indexItem_by_dn, if_neg he, ← hd, updateFn_same]
        rfl
      · rw [List.filter_cons_of_neg (by simp [he, hd]), indexItem_by_dn, if_neg he,
          updateFn_other _ _ (fun h => hd (h.symm))]

theorem getObject_indexObjects (l : List Record) (d : String) :
    getObject (indexObjects l) d =
      (l.filter fun r => r.switch_class ≠ "error" ∧ r.attributes.dn = d).getLast? := by
  rw [getObject, indexObjects, foldl_indexItem_by_dn]
  show Option.or _ none = _
  rw [Option.or_none]

theorem mem_classAppend_mono (cur : List Record) (item : Record) {x : Record}
    (h : x ∈ cur) : x ∈ classAppend cur item := by
  rcases classAppend_eq_or cur item with h2 | h2 <;> rw [h2] <;> simp [h]

theorem mem_of_mem_classAppend {cur : List Record} {item x : Record}
    (h : x ∈ classAppend cur item) : x ∈ cur ∨ x = item := by
  rcases classAppend_eq_or cur item with h2 | h2 <;> rw [h2] at h
  · exact Or.inl h
  · simpa using h

theorem mem_of_mem_indexItem_by_class {wd : WorkingData} {r x : Record} {c : String}
    (hx : x ∈ (indexItem wd r).by_class c) :
    x ∈ wd.by_class c ∨ (x = r ∧ r.switch_class = c) := by
  by_cases hc : c = r.switch_class
  · unfold indexItem at hx
    split at hx
    · exact Or.inl hx
    · subst hc
      dsimp only at hx
      rw [updateFn_same] at hx
      rcases mem_of_mem_classAppend hx with h | h
      · exact Or.inl h
      · exact Or.inr ⟨h, rfl⟩
  · rw [indexItem_by_class_ne wd r hc] at hx
    exact Or.inl hx

theorem mem_by_class_foldl {l : List Record} {wd : WorkingData} {c : String} {x : Record}
    (hx : x ∈ (l.foldl indexItem wd).by_class c) :
    x ∈ wd.by_class c ∨ (x ∈ l ∧ x.switch_class = c) := by
  induction l generalizing wd with
  | nil => exact Or.inl hx
  | cons r t ih =>
    rw [List.foldl_cons] at hx
    rcases ih hx with h | h
    · rcases mem_of_mem_indexItem_by_class h with h2 | h2
      · exact Or.inl h2
      · exact Or.inr ⟨by simp [h2.1], by rw [h2.1, h2.2]⟩
    · exact Or.inr ⟨List.mem_cons_of_mem r h.1, h.2⟩

theorem mem_getClass_indexObjects {l : List Record} {c : String} {x : Record}
    (hx : x ∈ getClass (indexObjects l) c) : x ∈ l ∧ x.switch_class = c := by
  rcases mem_by_class_foldl hx with h | h
  · exact absurd h (by simp [WorkingData.empty])
  · exact h

theorem role_mem_classAppend {cur : List Record} {item x : Record}
    (hfab : item.switch_class = "fabricNode") (hx : x ∈ classAppend cur item) :
    x ∈ cur ∨ (x = item ∧ (item.attributes.role = "leaf" ∨ item.attributes.role = "spine" ∨
      item.attributes.role = "controller")) := by
  unfold classAppend at hx
  rw [if_pos hfab] at hx
  split at hx
  · rcases List.mem_append.mp hx with h | h
    · exact Or.inl h
    · rename_i hrole
      exact Or.inr ⟨List.mem_singleton.mp h, hrole.imp id Or.inl⟩
  · split at hx
    · split at hx
      · exact Or.inl hx
      · rcases List.mem_append.mp hx with h | h
        · exact Or.inl h
        · rename_i hcond _
          exact Or.inr ⟨List.mem_singleton.mp h, Or.inr (Or.inr hcond.1)⟩
    · exact Or.inl hx

theorem mem_indexItem_fabricNode {wd : WorkingData} {r x : Record}
    (hx : x ∈ (indexItem wd r).by_class "fabricNode") :
    x ∈ wd.by_class "fabricNode" ∨
      (x.attributes.role = "leaf" ∨ x.attributes.role = "spine" ∨
        x.attributes.role = "controller") := by
  by_cases hc : ("fabricNode" : String) = r.switch_class
  · unfold indexItem at hx
    split at hx
    · exact Or.inl hx
    · dsimp only at hx
      rw [hc, updateFn_same] at hx
      rcases role_mem_classAppend hc.symm hx with h | h
      · rw [hc]
        exact Or.inl h
      · rw [h.1]
        exact Or.inr h.2
  · rw [indexItem_by_class_ne wd r hc] at hx
    exact Or.inl hx

theorem role_of_mem_fabricNode_foldl {l : List Record} {wd : WorkingData} {x : Record}
    (hx : x ∈ (l.foldl indexItem wd).by_class "fabricNode") :
    x ∈ wd.by_class "fabricNode" ∨
      (x.attributes.role = "leaf" ∨ x.attributes.role = "spine" ∨
        x.attributes.role = "controller") := by
  induction l generalizing wd with
  | nil => exact Or.inl hx
  | cons r t ih =>
    rw [List.foldl_cons] at hx
    rcases ih hx with h | h
    · exact mem_indexItem_fabricNode h
    · exact Or.inr h

theorem by_class_foldl_ne {l : List Record} {wd : WorkingData} {c : String}
    (h : ∀ r ∈ l, r.switch_class ≠ c) :
    (l.foldl indexItem wd).by_class c = wd.by_class c := by
  induction l generalizing wd with
  | nil => rfl
  | cons r t ih =>
    rw [List.foldl_cons, ih (fun x hx => h x (List.mem_cons_of_mem r hx)),
      indexItem_by_class_ne wd r (fun hc => h r (List.mem_cons_self r t) hc.symm)]

theorem indexItem_by_class_mono {wd : WorkingData} {r : Record} {c : String} {x : Record}
    (h : x ∈ wd.by_class c) : x ∈ (indexItem wd r).by_class c := by
  unfold indexItem
  split
  · exact h
  · dsimp only
    by_cases hc : c = r.switch_class
    · subst hc
      rw [updateFn_same]
      exact mem_classAppend_mono _ _ h
    · rw [updateFn_other _ _ hc]
      exact h

theorem mem_by_class_foldl_of_mem {l : List Record} {wd : WorkingData} {c : String}
    {x : Record} (h : x ∈ wd.by_class c) : x ∈ (l.foldl indexItem wd).by_class c := by
  induction l generalizing wd with
  | nil => exact h
  | cons r t ih =>
    rw [List.foldl_cons]
    exact ih (indexItem_by_class_mono h)

theorem self_mem_indexItem_by_class {wd : WorkingData} {r : Record}
    (he : r.switch_class ≠ "error") (hf : r.switch_class ≠ "fabricNode") :
    r ∈ (indexItem wd r).by_class r.switch_class := by
  unfold indexItem
  rw [if_neg he]
  dsimp only
  rw [updateFn_same]
  unfold classAppend
  rw [if_neg hf]
  simp

theorem mem_by_class_foldl_of_mem_list {l : List Record} {wd : WorkingData} {r : Record}
    (hr : r ∈ l) (he : r.switch_class ≠ "error") (hf : r.switch_class ≠ "fabricNode") :
    r ∈ (l.foldl indexItem wd).by_class r.switch_class := by
  induction l generalizing wd with
  | nil => cases hr
  | cons a t ih =>
    rw [List.foldl_cons]
    rcases List.mem_cons.mp hr with h | h
    · subst h
      exact mem_by_class_foldl_of_mem (self_mem_indexItem_by_class he hf)
    · exact ih h

theorem take_length_eq_iff {s p : String} :
    s.take p.length = p ↔ List.IsPrefix p.data s.data := by
  rw [String.take_eq, List.prefix_iff_eq_take]
  constructor
  · intro h
    exact (congrArg String.data h).symm
  · intro h
    exact congrArg String.mk h.symm

theorem getLast?_eq_some_of_all_eq {l : List α} {a : α} (hne : a ∈ l)
    (hall : ∀ x ∈ l, x = a) : l.getLast? = some a := by
  obtain ⟨y, hy⟩ := Option.isSome_iff_exists.mp
    (List.getLast?_isSome.mpr (List.ne_nil_of_mem hne))
  rw [hy, hall y (List.mem_of_getLast?_eq_some hy)]

/-! ### Claim theorems -/

/-- C5: in `by_dn`, each identifier maps to a unique record; a later record
in the batch with the same dn silently overwrites an earlier one, so
`get_object` returns the record that occurred last in the batch among the
records with that dn (skipping `error` keys, which are never indexed). -/
theorem by_identifier_last_write_wins (batch : List Record) (d : String) :
    getObject (indexObjects batch) d =
      (batch.filter fun r => r.switch_class ≠ "error" ∧ r.attributes.dn = d).getLast? :=
  getObject_indexObjects batch d

/-- C8: for every batch and every class name that occurs in no record of
the batch, `get_class` returns the empty list (and, being a total
function, never fails). -/
theorem get_class_unknown_empty (batch : List Record) (c : String)
    (h : ∀ r ∈ batch, r.switch_class ≠ c) :
    getClass (indexObjects batch) c = [] := by
  rw [getClass, indexObjects, by_class_foldl_ne h]
  rfl

/-- Witness for C8 at a concrete batch and an unseen class name. -/
theorem get_class_unknown_empty_witness :
    getClass (indexObjects [Record.mk "topSystem" (Attributes.mk "sys" "" "" "" "")])
      "l2BD" = [] :=
  get_class_unknown_empty _ _ (by decide)

/-- C4: for a batch of non-`error` records with pairwise distinct dns,
`get_object` returns exactly the record whose dn equals the query, and
`None` for a dn not present in the batch (exact match only). -/
theorem get_object_exact_match (batch : List Record)
    (hdistinct : batch.Pairwise (fun a b => a.attributes.dn ≠ b.attributes.dn))
    (herr : ∀ r ∈ batch, r.switch_class ≠ "error") :
    (∀ r ∈ batch, getObject (indexObjects batch) r.attributes.dn = some r) ∧
    (∀ q, (∀ r ∈ batch, r.attributes.dn ≠ q) →
      getObject (indexObjects batch) q = none) := by
  constructor
  · intro r hr
    rw [getObject_indexObjects]
    apply getLast?_eq_some_of_all_eq
    · rw [List.mem_filter]
      exact ⟨hr, by simp [herr r hr]⟩
    · intro x hx
      rw [List.mem_filter] at hx
      have hdn : x.attributes.dn = r.attributes.dn := by
        have := hx.2
        simp at this
        exact this.2
      by_contra hne
      have hsymm : Symmetric (fun a b : Record => a.attributes.dn ≠ b.attributes.dn) :=
        fun a b h e => h e.symm
      exact hdistinct.forall hsymm hx.1 hr hne hdn
  · intro q hq
    rw [getObject_indexObjects, List.filter_eq_nil_iff.mpr ?_]
    · rfl
    · intro a ha
      simp
      intro _
      exact hq a ha

/-- Witness for C4: a two-record batch with distinct dns; lookup of each dn
returns its record and lookup of an absent dn returns `none`. -/
theorem get_object_exact_match_witness :
    getObject (indexObjects [Record.mk "X" (Attributes.mk "d1" "" "" "" ""),
        Record.mk "Y" (Attributes.mk "d2" "" "" "" "")]) "d1" =
      some (Record.mk "X" (Attributes.mk "d1" "" "" "" "")) ∧
    getObject (indexObjects [Record.mk "X" (Attributes.mk "d1" "" "" "" ""),
        Record.mk "Y" (Attributes.mk "d2" "" "" "" "")]) "zz" = none := by
  refine ⟨?_, ?_⟩
  · exact (get_object_exact_match _ (by decide) (by decide)).1
      (Record.mk "X" (Attributes.mk "d1" "" "" "" "")) (by decide)
  · exact (get_object_exact_match _ (by decide) (by decide)).2 "zz" (by decide)

/-- C9: after ingesting any batch, every record in the `fabricNode` class
list has role `leaf`, `spine` or `controller`; a `fabricNode` record with
any other role is never in the class list, yet is still indexed by dn and
retrievable through `get_object`. -/
theorem fabricNode_role_invariant :
    (∀ (batch : List Record) (x : Record),
       x ∈ getClass (indexObjects batch) "fabricNode" →
       x.attributes.role = "leaf" ∨ x.attributes.role = "spine" ∨
         x.attributes.role = "controller") ∧
    (∀ (batch : List Record) (r : Record), r ∈ batch →
       r.switch_class = "fabricNode" →
       ¬(r.attributes.role = "leaf" ∨ r.attributes.role = "spine" ∨
         r.attributes.role = "controller") →
       r ∉ getClass (indexObjects batch) "fabricNode" ∧
       getObject (indexObjects batch) r.attributes.dn ≠ none) := by
  have part1 : ∀ (batch : List Record) (x : Record),
      x ∈ getClass (indexObjects batch) "fabricNode" →
      x.attributes.role = "leaf" ∨ x.attributes.role = "spine" ∨
        x.attributes.role = "controller" := by
    intro batch x hx
    simp only [getClass, indexObjects] at hx
    rcases role_of_mem_fabricNode_foldl hx with h | h
    · simp [WorkingData.empty] at h
    · exact h
  refine ⟨part1, ?_⟩
  intro batch r hr hclass hrole
  constructor
  · intro hmem
    exact hrole (part1 batch r hmem)
  · rw [getObject_indexObjects]
    intro hnone
    have hmem : r ∈ batch.filter
        (fun x => x.switch_class ≠ "error" ∧ x.attributes.dn = r.attributes.dn) :=
      List.mem_filter.mpr ⟨hr, by simp [hclass]⟩
    have h2 := List.getLast?_isSome.mpr (List.ne_nil_of_mem hmem)
    rw [hnone] at h2
    simp at h2

/-- Witness for C9: a `fabricNode` record with role `vleaf` is absent from
the class list but present in the dn index. -/
theorem fabricNode_role_invariant_witness :
    Record.mk "fabricNode" (Attributes.mk "d1" "vleaf" "" "" "") ∉
      getClass (indexObjects [Record.mk "fabricNode" (Attributes.mk "d1" "vleaf" "" "" "")])
        "fabricNode" ∧
    getObject (indexObjects [Record.mk "fabricNode" (Attributes.mk "d1" "vleaf" "" "" "")])
      "d1" ≠ none :=
  fabricNode_role_invariant.2
    [Record.mk "fabricNode" (Attributes.mk "d1" "vleaf" "" "" "")]
    (Record.mk "fabricNode" (Attributes.mk "d1" "vleaf" "" "" ""))
    (by decide) (by decide) (by decide)

/-- C2: `get_subtree(X, p)` returns exactly the records of class `X` whose
dn starts with the literal string `p` (plain string-prefix comparison, not
path-segment aware). -/
theorem get_subtree_prefix_filter :
    ∀ (batch : List Record) (c p : String) (r : Record),
      r ∈ getSubtree (indexObjects batch) c p ↔
        r ∈ getClass (indexObjects batch) c ∧ r.switch_class = c ∧
          List.IsPrefix p.data r.attributes.dn.data := by
  intro batch c p r
  constructor
  · intro h
    simp only [getSubtree] at h
    rw [List.mem_filter] at h
    obtain ⟨hmem, hpref⟩ := h
    refine ⟨hmem, (mem_getClass_indexObjects hmem).2, ?_⟩
    rw [← take_length_eq_iff]
    simpa using hpref
  · rintro ⟨hmem, _, hpref⟩
    simp only [getSubtree]
    exact List.mem_filter.mpr ⟨hmem, by simp [take_length_eq_iff.mpr hpref]⟩

/-- Witness for C2: a record with dn `a/bc` is returned for the prefix
`a/b` (prefix match, not path-segment match). -/
theorem get_subtree_prefix_filter_witness :
    Record.mk "X" (Attributes.mk "a/bc" "" "" "" "") ∈
      getSubtree (indexObjects [Record.mk "X" (Attributes.mk "a/bc" "" "" "" "")])
        "X" "a/b" :=
  (get_subtree_prefix_filter
      [Record.mk "X" (Attributes.mk "a/bc" "" "" "" "")] "X" "a/b"
      (Record.mk "X" (Attributes.mk "a/bc" "" "" "" ""))).mpr
    ⟨by decide, rfl, ⟨['c'], by decide⟩⟩

theorem indexItem_by_class_self {wd : WorkingData} {r : Record}
    (he : r.switch_class ≠ "error") :
    (indexItem wd r).by_class r.switch_class =
      classAppend (wd.by_class r.switch_class) r := by
  unfold indexItem
  rw [if_neg he]
  dsimp only
  rw [updateFn_same]

/-- C1: for fabric-node records with the same dn, two input records with
role `controller` are deduplicated — only the first occurrence is kept in
the `fabricNode` class list — while two records with role `leaf` (or with
role `spine`) are both appended, in input order. -/
theorem fabricNode_controller_dedup (r1 r2 : Record)
    (h1 : r1.switch_class = "fabricNode") (h2 : r2.switch_class = "fabricNode")
    (hdn : r1.attributes.dn = r2.attributes.dn) :
    (r1.attributes.role = "controller" → r2.attributes.role = "controller" →
      getClass (indexObjects [r1, r2]) "fabricNode" = [r1]) ∧
    (r1.attributes.role = "leaf" → r2.attributes.role = "leaf" →
      getClass (indexObjects [r1, r2]) "fabricNode" = [r1, r2]) ∧
    (r1.attributes.role = "spine" → r2.attributes.role = "spine" →
      getClass (indexObjects [r1, r2]) "fabricNode" = [r1, r2]) := by
  have he1 : r1.switch_class ≠ "error" := by rw [h1]; decide
  have he2 : r2.switch_class ≠ "error" := by rw [h2]; decide
  have main : ∀ res : List Record, classAppend [] r1 = [r1] →
      classAppend [r1] r2 = res →
      getClass (indexObjects [r1, r2]) "fabricNode" = res := by
    intro res sa sb
    show (indexItem (indexItem WorkingData.empty r1) r2).by_class "fabricNode" = res
    have t1 := @indexItem_by_class_self WorkingData.empty r1 he1
    rw [h1] at t1
    rw [show WorkingData.empty.by_class "fabricNode" = [] from rfl] at t1
    have t2 := @indexItem_by_class_self (indexItem WorkingData.empty r1) r2 he2
    rw [h2] at t2
    rw [t2, t1, sa, sb]
  refine ⟨?_, ?_, ?_⟩
  · intro hc1 hc2
    apply main
    · simp [classAppend, h1, hc1]
    · by_cases heq : r2 = r1
      · subst heq
        simp [classAppend, h1, hc1]
      · simp [classAppend, h2, hc2, heq, hdn]
  · intro hl1 hl2
    apply main
    · simp [classAppend, h1, hl1]
    · simp [classAppend, h2, hl2]
  · intro hs1 hs2
    apply main
    · simp [classAppend, h1, hs1]
    · simp [classAppend, h2, hs2]

/-- Witness for C1: concrete same-dn controller pair keeps only the first
record; concrete same-dn leaf pair keeps both. -/
theorem fabricNode_controller_dedup_witness :
    getClass (indexObjects
        [Record.mk "fabricNode" (Attributes.mk "d1" "controller" "" "" ""),
         Record.mk "fabricNode" (Attributes.mk "d1" "controller" "n2" "" "")])
      "fabricNode" =
      [Record.mk "fabricNode" (Attributes.mk "d1" "controller" "" "" "")] ∧
    getClass (indexObjects
        [Record.mk "fabricNode" (Attributes.mk "d2" "leaf" "" "" ""),
         Record.mk "fabricNode" (Attributes.mk "d2" "leaf" "" "" "")])
      "fabricNode" =
      [Record.mk "fabricNode" (Attributes.mk "d2" "leaf" "" "" ""),
       Record.mk "fabricNode" (Attributes.mk "d2" "leaf" "" "" "")] :=
  ⟨(fabricNode_controller_dedup
      (Record.mk "fabricNode" (Attributes.mk "d1" "controller" "" "" ""))
      (Record.mk "fabricNode" (Attributes.mk "d1" "controller" "n2" "" ""))
      rfl rfl rfl).1 rfl rfl,
   (fabricNode_controller_dedup
      (Record.mk "fabricNode" (Attributes.mk "d2" "leaf" "" "" ""))
      (Record.mk "fabricNode" (Attributes.mk "d2" "leaf" "" "" ""))
      rfl rfl rfl).2.1 rfl rfl⟩

theorem classAppend_other {cur : List Record} {item : Record}
    (hf : item.switch_class ≠ "fabricNode") : classAppend cur item = cur ++ [item] := by
  unfold classAppend
  rw [if_neg hf]

theorem processCtx_by_class (wd : WorkingData) (c : Record) :
    (processCtx wd c).by_class = wd.by_class := rfl

theorem processCtx_by_dn (wd : WorkingData) (c : Record) :
    (processCtx wd c).by_dn = wd.by_dn := rfl

/-- The central two-record scenario: one L3-context record and one `l2BD`
record whose dn's parent is the context's dn. Ingestion succeeds; the
bridge domain's `vnid_dict` entry carries the short name derived from the
last colon field of its name attribute (the vnid when that field is empty)
and the context resolved to the L3-context record's name. -/
theorem ingest_ctx_bd {ctx bd : Record} {v : String}
    (hctx : ctx.switch_class = "l3Ctx" ∨ ctx.switch_class = "l3Inst")
    (hbd : bd.switch_class = "l2BD")
    (hpar : parentDn bd.attributes.dn = ctx.attributes.dn)
    (hne : ctx.attributes.dn ≠ bd.attributes.dn)
    (hfe : (pySplit bd.attributes.fabEncap '-').get? 1 = some v) :
    ∃ s : WorkingData, ingest [ctx, bd] = some s ∧
      s.vnid_dict v = some (VnidEntry.bd
        (if (pySplit bd.attributes.name ':').getLastD "" = "" then v
         else (pySplit bd.attributes.name ':').getLastD "")
        (some ctx.attributes.name)) := by
  have hce : ctx.switch_class ≠ "error" := by
    rcases hctx with h | h <;> rw [h] <;> decide
  have hcf : ctx.switch_class ≠ "fabricNode" := by
    rcases hctx with h | h <;> rw [h] <;> decide
  have hbe : bd.switch_class ≠ "error" := by rw [hbd]; decide
  have hbf : bd.switch_class ≠ "fabricNode" := by rw [hbd]; decide
  have hbc_ne : bd.switch_class ≠ ctx.switch_class := by
    rcases hctx with h | h <;> rw [hbd, h] <;> decide
  have e_ctx_cls : (indexObjects [ctx, bd]).by_class ctx.switch_class = [ctx] := by
    show (indexItem (indexItem WorkingData.empty ctx) bd).by_class ctx.switch_class = [ctx]
    rw [indexItem_by_class_ne _ _ (Ne.symm hbc_ne), indexItem_by_class_self hce,
      show WorkingData.empty.by_class ctx.switch_class = [] from rfl,
      classAppend_other hcf]
    rfl
  have e_bd_cls : (indexObjects [ctx, bd]).by_class "l2BD" = [bd] := by
    rw [← hbd]
    show (indexItem (indexItem WorkingData.empty ctx) bd).by_class bd.switch_class = [bd]
    rw [indexItem_by_class_self hbe, indexItem_by_class_ne _ _ hbc_ne,
      show WorkingData.empty.by_class bd.switch_class = [] from rfl,
      classAppend_other hbf]
    rfl
  have e_other : ∀ X, X ≠ ctx.switch_class → X ≠ "l2BD" →
      (indexObjects [ctx, bd]).by_class X = [] := by
    intro X h1 h2
    show (indexItem (indexItem WorkingData.empty ctx) bd).by_class X = []
    rw [indexItem_by_class_ne _ _ (by rw [hbd]; exact h2), indexItem_by_class_ne _ _ h1]
    rfl
  have hcd : getClass (indexObjects [ctx, bd]) "l3Inst" ++
      getClass (indexObjects [ctx, bd]) "l3Ctx" = [ctx] := by
    rcases hctx with hc | hc
    · rw [getClass, getClass, e_other "l3Inst" (by rw [hc]; decide) (by decide), ← hc,
        e_ctx_cls]
      rfl
    · rw [getClass, getClass, ← hc, e_ctx_cls, e_other "l3Ctx" (by rw [hc]; decide)
        (by decide)]
      simp
  have hobj : getObject (processCtx (indexObjects [ctx, bd]) ctx) ctx.attributes.dn =
      some ctx := by
    show (processCtx (indexObjects [ctx, bd]) ctx).by_dn ctx.attributes.dn = some ctx
    rw [processCtx_by_dn]
    show (indexItem (indexItem WorkingData.empty ctx) bd).by_dn ctx.attributes.dn = some ctx
    rw [indexItem_by_dn, if_neg hbe, updateFn_other _ _ hne, indexItem_by_dn, if_neg hce,
      updateFn_same]
  have hpbd : processBD (processCtx (indexObjects [ctx, bd]) ctx) bd =
      some { processCtx (indexObjects [ctx, bd]) ctx with
        vnid_dict := updateFn (processCtx (indexObjects [ctx, bd]) ctx).vnid_dict v
          (some (VnidEntry.bd
            (if (pySplit bd.attributes.name ':').getLastD "" = "" then v
             else (pySplit bd.attributes.name ':').getLastD "")
            (some ctx.attributes.name))),
        bd_dict := updateFn (processCtx (indexObjects [ctx, bd]) ctx).bd_dict
          (if (pySplit bd.attributes.name ':').getLastD "" = "" then v
           else (pySplit bd.attributes.name ':').getLastD "") v } := by
    unfold processBD
    rw [hfe]
    dsimp only
    rw [hpar, hobj]
    dsimp only
    have hctxv : (if ctx.switch_class = "l3Ctx" then some ctx.attributes.name
        else if ctx.switch_class = "l3Inst" then some ctx.attributes.name else none) =
        some ctx.attributes.name := by
      rcases hctx with hc | hc <;> rw [hc] <;> simp
    rw [hctxv]
  refine ⟨{ processCtx (indexObjects [ctx, bd]) ctx with
    vnid_dict := updateFn (processCtx (indexObjects [ctx, bd]) ctx).vnid_dict v
      (some (VnidEntry.bd
        (if (pySplit bd.attributes.name ':').getLastD "" = "" then v
         else (pySplit bd.attributes.name ':').getLastD "")
        (some ctx.attributes.name))),
    bd_dict := updateFn (processCtx (indexObjects [ctx, bd]) ctx).bd_dict
      (if (pySplit bd.attributes.name ':').getLastD "" = "" then v
       else (pySplit bd.attributes.name ':').getLastD "") v }, ?_, ?_⟩
  · show buildVnidDictionary (indexObjects [ctx, bd]) = _
    unfold buildVnidDictionary
    dsimp only
    rw [hcd]
    show processBDs (processCtx (indexObjects [ctx, bd]) ctx)
      (getClass (processCtx (indexObjects [ctx, bd]) ctx) "l2BD") = _
    rw [show getClass (processCtx (indexObjects [ctx, bd]) ctx) "l2BD" = [bd] from by
      rw [getClass, processCtx_by_class]; exact e_bd_cls]
    unfold processBDs
    rw [hpbd]
    rfl
  · exact updateFn_same _ _ _

/-- C6: after ingesting one batch containing one L3-context record and one
bridge-domain record whose dn is a direct child of the context's dn (the
context's dn is the bridge-domain's dn with its last path segment
stripped), the bridge-domain's `vnid_dict` entry resolves its context to
the L3-context record's name attribute. -/
theorem bd_context_resolution (ctx bd : Record) (v : String)
    (hctx : ctx.switch_class = "l3Ctx" ∨ ctx.switch_class = "l3Inst")
    (hbd : bd.switch_class = "l2BD")
    (hpar : parentDn bd.attributes.dn = ctx.attributes.dn)
    (hne : ctx.attributes.dn ≠ bd.attributes.dn)
    (hfe : (pySplit bd.attributes.fabEncap '-').get? 1 = some v) :
    ((ingest [ctx, bd]).bind fun s => s.vnid_dict v).map VnidEntry.bd_context =
      some (some ctx.attributes.name) ∧
    ((ingest [ctx, bd]).bind fun s => s.vnid_dict v).map VnidEntry.entry_type =
      some "bd" := by
  obtain ⟨s, h1, h2⟩ := ingest_ctx_bd hctx hbd hpar hne hfe
  rw [h1]
  rw [show (some s).bind (fun s => s.vnid_dict v) = s.vnid_dict v from rfl, h2]
  constructor <;> rfl

/-- Witness for C6: concrete context `ctxA` at dn `sys/ctx-a` and bridge
domain at dn `sys/ctx-a/bd-5`; the bridge-domain entry's context is
`ctxA`. -/
theorem bd_context_resolution_witness :
    ((ingest [Record.mk "l3Inst" (Attributes.mk "sys/ctx-a" "" "ctxA" "vxlan-111" ""),
        Record.mk "l2BD" (Attributes.mk "sys/ctx-a/bd-5" "" "uni/tn-X:bd1" "" "vxlan-222")]).bind
      fun s => s.vnid_dict "222").map VnidEntry.bd_context = some (some "ctxA") ∧
    ((ingest [Record.mk "l3Inst" (Attributes.mk "sys/ctx-a" "" "ctxA" "vxlan-111" ""),
        Record.mk "l2BD" (Attributes.mk "sys/ctx-a/bd-5" "" "uni/tn-X:bd1" "" "vxlan-222")]).bind
      fun s => s.vnid_dict "222").map VnidEntry.entry_type = some "bd" :=
  bd_context_resolution
    (Record.mk "l3Inst" (Attributes.mk "sys/ctx-a" "" "ctxA" "vxlan-111" ""))
    (Record.mk "l2BD" (Attributes.mk "sys/ctx-a/bd-5" "" "uni/tn-X:bd1" "" "vxlan-222"))
    "222" (Or.inr rfl) rfl (by decide) (by decide) (by decide)

/-- C7: for an ingested bridge-domain record, the short name stored in its
`vnid_dict` entry is the text after the last colon of the record's name
attribute, and the vnid itself when that text is empty. -/
theorem bd_short_name (ctx bd : Record) (v : String)
    (hctx : ctx.switch_class = "l3Ctx" ∨ ctx.switch_class = "l3Inst")
    (hbd : bd.switch_class = "l2BD")
    (hpar : parentDn bd.attributes.dn = ctx.attributes.dn)
    (hne : ctx.attributes.dn ≠ bd.attributes.dn)
    (hfe : (pySplit bd.attributes.fabEncap '-').get? 1 = some v) :
    ((ingest [ctx, bd]).bind fun s => s.vnid_dict v).map VnidEntry.entry_name =
      some (if (pySplit bd.attributes.name ':').getLastD "" = "" then v
        else (pySplit bd.attributes.name ':').getLastD "") := by
  obtain ⟨s, h1, h2⟩ := ingest_ctx_bd hctx hbd hpar hne hfe
  rw [h1]
  rw [show (some s).bind (fun s => s.vnid_dict v) = s.vnid_dict v from rfl, h2]
  rfl

/-- Witness for C7: name attribute `uni/tn-X:bd1` yields short name `bd1`;
an empty name attribute yields the vnid `223` as the short name. -/
theorem bd_short_name_witness :
    ((ingest [Record.mk "l3Inst" (Attributes.mk "sys/ctx-a" "" "ctxA" "vxlan-111" ""),
        Record.mk "l2BD" (Attributes.mk "sys/ctx-a/bd-5" "" "uni/tn-X:bd1" "" "vxlan-222")]).bind
      fun s => s.vnid_dict "222").map VnidEntry.entry_name = some "bd1" ∧
    ((ingest [Record.mk "l3Inst" (Attributes.mk "sys/ctx-a" "" "ctxA" "vxlan-111" ""),
        Record.mk "l2BD" (Attributes.mk "sys/ctx-a/bd-6" "" "" "" "vxlan-223")]).bind
      fun s => s.vnid_dict "223").map VnidEntry.entry_name = some "223" := by
  constructor
  · have h := bd_short_name
      (Record.mk "l3Inst" (Attributes.mk "sys/ctx-a" "" "ctxA" "vxlan-111" ""))
      (Record.mk "l2BD" (Attributes.mk "sys/ctx-a/bd-5" "" "uni/tn-X:bd1" "" "vxlan-222"))
      "222" (Or.inr rfl) rfl (by decide) (by decide) (by decide)
    simpa using h
  · have h := bd_short_name
      (Record.mk "l3Inst" (Attributes.mk "sys/ctx-a" "" "ctxA" "vxlan-111" ""))
      (Record.mk "l2BD" (Attributes.mk "sys/ctx-a/bd-6" "" "" "" "vxlan-223"))
      "223" (Or.inr rfl) rfl (by decide) (by decide) (by decide)
    simpa using h

/-- C3 counterexample: for an L3-context record with
`encap = "vxlan-extended-12345"` and name `ctxA`, the claimed key — the
suffix after the LAST hyphen, `"12345"` — is absent from the vnid map.
The code uses `encap.split('-')[1]`, the field after the FIRST hyphen, so
the entry is stored under `"extended"` instead. -/
theorem ctx_vnid_last_hyphen_counterexample :
    ((ingest [Record.mk "l3Ctx"
        (Attributes.mk "c1" "" "ctxA" "vxlan-extended-12345" "")]).bind
      fun s => s.vnid_dict "12345") = none ∧
    ((ingest [Record.mk "l3Ctx"
        (Attributes.mk "c1" "" "ctxA" "vxlan-extended-12345" "")]).bind
      fun s => s.vnid_dict "extended") = some (VnidEntry.context "ctxA") := by
  decide

/-- C3 (amended): for an L3-context record (class `l3Ctx` or `l3Inst`)
ingested alone, the derived vnid is element 1 of the hyphen-split of the
encap attribute — the text between the first hyphen and the next hyphen or
the end — when the encap contains a hyphen, and the whole encap value
otherwise; the vnid map then contains vnid → `{name, type: context}` and
the reverse context map contains name → vnid. -/
theorem ctx_vnid_round_trip (ctx : Record)
    (hctx : ctx.switch_class = "l3Ctx" ∨ ctx.switch_class = "l3Inst") :
    ((ingest [ctx]).bind fun s => s.vnid_dict
        (if ctx.attributes.encap.data.contains '-'
         then (pySplit ctx.attributes.encap '-').getD 1 ""
         else ctx.attributes.encap)) =
      some (VnidEntry.context ctx.attributes.name) ∧
    ((ingest [ctx]).bind fun s => s.ctx_dict ctx.attributes.name) =
      some (if ctx.attributes.encap.data.contains '-'
         then (pySplit ctx.attributes.encap '-').getD 1 ""
         else ctx.attributes.encap) := by
  have hce : ctx.switch_class ≠ "error" := by
    rcases hctx with h | h <;> rw [h] <;> decide
  have hcf : ctx.switch_class ≠ "fabricNode" := by
    rcases hctx with h | h <;> rw [h] <;> decide
  have e_ctx_cls : (indexObjects [ctx]).by_class ctx.switch_class = [ctx] := by
    show (indexItem WorkingData.empty ctx).by_class ctx.switch_class = [ctx]
    rw [indexItem_by_class_self hce,
      show WorkingData.empty.by_class ctx.switch_class = [] from rfl,
      classAppend_other hcf]
    rfl
  have e_other : ∀ X, X ≠ ctx.switch_class → (indexObjects [ctx]).by_class X = [] := by
    intro X h1
    show (indexItem WorkingData.empty ctx).by_class X = []
    rw [indexItem_by_class_ne _ _ h1]
    rfl
  have hcd : getClass (indexObjects [ctx]) "l3Inst" ++
      getClass (indexObjects [ctx]) "l3Ctx" = [ctx] := by
    rcases hctx with hc | hc
    · rw [getClass, getClass, e_other "l3Inst" (by rw [hc]; decide), ← hc, e_ctx_cls]
      rfl
    · rw [getClass, getClass, ← hc, e_ctx_cls, e_other "l3Ctx" (by rw [hc]; decide)]
      simp
  have hl2 : getClass (processCtx (indexObjects [ctx]) ctx) "l2BD" = [] := by
    rw [getClass, processCtx_by_class]
    exact e_other "l2BD" (by rcases hctx with hc | hc <;> rw [hc] <;> decide)
  have hing : ingest [ctx] = some (processCtx (indexObjects [ctx]) ctx) := by
    show buildVnidDictionary (indexObjects [ctx]) = _
    unfold buildVnidDictionary
    dsimp only
    rw [hcd]
    show processBDs (processCtx (indexObjects [ctx]) ctx)
      (getClass (processCtx (indexObjects [ctx]) ctx) "l2BD") = _
    rw [hl2]
    rfl
  rw [hing]
  constructor
  · rw [show (some (processCtx (indexObjects [ctx]) ctx)).bind
        (fun s => s.vnid_dict
          (if ctx.attributes.encap.data.contains '-'
           then (pySplit ctx.attributes.encap '-').getD 1 ""
           else ctx.attributes.encap)) =
        (processCtx (indexObjects [ctx]) ctx).vnid_dict
          (if ctx.attributes.encap.data.contains '-'
           then (pySplit ctx.attributes.encap '-').getD 1 ""
           else ctx.attributes.encap) from rfl]
    exact updateFn_same _ _ _
  · rw [show (some (processCtx (indexObjects [ctx]) ctx)).bind
        (fun s => s.ctx_dict ctx.attributes.name) =
        (processCtx (indexObjects [ctx]) ctx).ctx_dict ctx.attributes.name from rfl]
    exact updateFn_same _ _ _

/-- Witness for the amended C3: `encap = "vxlan-12345"` (single hyphen)
gives vnid `12345`, mapped to `{name: ctxA, type: context}`, with the
reverse map sending `ctxA` to `12345`. -/
theorem ctx_vnid_round_trip_witness :
    ((ingest [Record.mk "l3Ctx" (Attributes.mk "c1" "" "ctxA" "vxlan-12345" "")]).bind
      fun s => s.vnid_dict "12345") = some (VnidEntry.context "ctxA") ∧
    ((ingest [Record.mk "l3Ctx" (Attributes.mk "c1" "" "ctxA" "vxlan-12345" "")]).bind
      fun s => s.ctx_dict "ctxA") = some "12345" := by
  have h := ctx_vnid_round_trip
    (Record.mk "l3Ctx" (Attributes.mk "c1" "" "ctxA" "vxlan-12345" "")) (Or.inl rfl)
  exact h

theorem processBD_by_dn {wd wd2 : WorkingData} {r : Record}
    (h : processBD wd r = some wd2) : wd2.by_dn = wd.by_dn := by
  unfold processBD at h
  split at h
  · cases h
  · dsimp only at h
    split at h
    · cases h
    · cases h
      rfl

theorem foldl_processCtx_by_dn (l : List Record) (wd : WorkingData) :
    (l.foldl processCtx wd).by_dn = wd.by_dn := by
  induction l generalizing wd with
  | nil => rfl
  | cons c t ih => rw [List.foldl_cons, ih, processCtx_by_dn]

theorem foldl_processCtx_by_class (l : List Record) (wd : WorkingData) :
    (l.foldl processCtx wd).by_class = wd.by_class := by
  induction l generalizing wd with
  | nil => rfl
  | cons c t ih => rw [List.foldl_cons, ih, processCtx_by_class]

theorem processBD_none_of_no_parent {wd : WorkingData} {r : Record}
    (hobj : wd.by_dn (parentDn r.attributes.dn) = none) : processBD wd r = none := by
  unfold processBD
  split
  · rfl
  · dsimp only
    rw [show getObject wd (parentDn r.attributes.dn) = none from hobj]

theorem processBDs_none : ∀ (l : List Record) (bd : Record), bd ∈ l →
    ∀ wd : WorkingData,
    (∀ wd' : WorkingData, wd'.by_dn = wd.by_dn → processBD wd' bd = none) →
    processBDs wd l = none := by
  intro l
  induction l with
  | nil => intro bd h; cases h
  | cons a t ih =>
    intro bd hmem wd hfail
    unfold processBDs
    rcases List.mem_cons.mp hmem with h | h
    · subst h
      rw [hfail wd rfl]
    · cases hpa : processBD wd a with
      | none => rfl
      | some wd2 =>
        show processBDs wd2 t = none
        exact ih bd h wd2 (fun wd' hd => hfail wd' (hd.trans (processBD_by_dn hpa)))

/-- C10: ingesting a batch with an `l2BD` record whose parent dn (its dn
with the last path segment stripped) is the dn of no record of the batch
fails as a whole: the parent lookup returns `None`, the class-membership
test `'l3Ctx' in None` raises, and `build_vnid_dictionary` aborts instead
of recording the bridge domain with an absent context. -/
theorem bd_missing_parent_fails (batch : List Record) (bd : Record)
    (hmem : bd ∈ batch) (hbd : bd.switch_class = "l2BD")
    (hnopar : ∀ r ∈ batch, r.attributes.dn ≠ parentDn bd.attributes.dn) :
    ingest batch = none := by
  show buildVnidDictionary (indexObjects batch) = none
  unfold buildVnidDictionary
  dsimp only
  rw [show getClass (List.foldl processCtx (indexObjects batch)
      (getClass (indexObjects batch) "l3Inst" ++ getClass (indexObjects batch) "l3Ctx"))
      "l2BD" = (indexObjects batch).by_class "l2BD" from by
    rw [getClass, foldl_processCtx_by_class]]
  have hbdmem : bd ∈ (indexObjects batch).by_class "l2BD" := by
    rw [← hbd]
    exact mem_by_class_foldl_of_mem_list hmem (by rw [hbd]; decide) (by rw [hbd]; decide)
  have hpar_none : (indexObjects batch).by_dn (parentDn bd.attributes.dn) = none := by
    have hgo := getObject_indexObjects batch (parentDn bd.attributes.dn)
    rw [getObject] at hgo
    rw [hgo, List.filter_eq_nil_iff.mpr ?_]
    · rfl
    · intro a ha
      simp
      intro _
      exact hnopar a ha
  refine processBDs_none _ bd hbdmem _ (fun wd' hd => processBD_none_of_no_parent ?_)
  rw [hd, foldl_processCtx_by_dn]
  exact hpar_none

/-- Witness for C10: a single `l2BD` record at dn `sys/ctx-a/bd-5` with no
parent record in the batch; the whole ingestion fails. -/
theorem bd_missing_parent_fails_witness :
    ingest [Record.mk "l2BD" (Attributes.mk "sys/ctx-a/bd-5" "" "n" "" "vxlan-9")] =
      none :=
  bd_missing_parent_fails _
    (Record.mk "l2BD" (Attributes.mk "sys/ctx-a/bd-5" "" "n" "" "vxlan-9"))
    (by decide) rfl (by decide)
